import Mathlib

/-!
Shallow embedding of the APNG generator core (`src/lib/convertToAPNG.ts`).

Byte buffers (`Uint8Array`) are modelled as `List Nat` with entries below 256;
`DataView.setUint32/setUint16/setUint8` big-endian writes and `Uint8Array.set`
are modelled by `writeU32`/`writeU16`/`setAt`; `Uint8Array.slice` by `slice`
(which clamps at the end of the buffer exactly as in JavaScript); chunk type
tags (4-character ASCII strings in the source, produced by `TextDecoder` /
consumed by `TextEncoder`, which are mutually inverse byte-level identities on
ASCII data) are modelled as the underlying 4-byte lists.

Untyped JavaScript runtime exceptions thrown by the source are modelled by the
`JSException` type: `rangeError` for an out-of-bounds `DataView` access,
`typeError` for a property access on `undefined`, and `ihdrNotFound` for the
explicit `throw new Error("IHDR chunk not found in the first image")`.

All input `Uint8Array`s in the repository are created with byte offset 0 over
their whole backing buffer, so `pngData.buffer` aliasing in the source reads
the same bytes as `pngData` itself.
-/

namespace APNG

/-! ## Byte-level primitives (DataView / Uint8Array operations) -/

/-- Big-endian 4-byte write of `DataView.setUint32` (stores `v mod 2^32`). -/
def writeU32 (v : Nat) : List Nat :=
  [v / 16777216 % 256, v / 65536 % 256, v / 256 % 256, v % 256]

/-- Big-endian 2-byte write of `DataView.setUint16` (stores `v mod 2^16`). -/
def writeU16 (v : Nat) : List Nat :=
  [v / 256 % 256, v % 256]

/-- Big-endian 4-byte read of `DataView.getUint32` at index `i`
(all uses in the source are bounds-guarded, so the default 0 is never read). -/
def readU32 (l : List Nat) (i : Nat) : Nat :=
  l.getD i 0 * 16777216 + l.getD (i+1) 0 * 65536 + l.getD (i+2) 0 * 256 + l.getD (i+3) 0

/-- Big-endian 2-byte read at index `i`. -/
def readU16 (l : List Nat) (i : Nat) : Nat :=
  l.getD i 0 * 256 + l.getD (i+1) 0

/-- `Uint8Array.slice(a, b)`: clamps at the end of the buffer, never throws. -/
def slice (l : List Nat) (a b : Nat) : List Nat :=
  (l.drop a).take (b - a)

/-- `target.set(src, pos)` on a `Uint8Array` (all uses in the source are
in-bounds). -/
def setAt (arr : List Nat) (src : List Nat) (pos : Nat) : List Nat :=
  arr.take pos ++ src ++ arr.drop (pos + src.length)

/-! ## Checksum engine (`crc32` in the source) -/

/-- One inner-loop step of the table construction:
`c = c & 1 ? 0xedb88320 ^ (c >>> 1) : c >>> 1`. -/
def crcIter (c : Nat) : Nat :=
  if c % 2 = 1 then 3988292384 ^^^ (c / 2) else c / 2

/-- `crcTable[i]`: the source precomputes this for `i < 256` by running the
inner loop 8 times starting from `i`; every lookup index is masked with
`& 0xff`, so only arguments below 256 are ever used. -/
def crcTable (i : Nat) : Nat :=
  crcIter^[8] i

/-- The source `crc32`: seed `-1` (i.e. `0xFFFFFFFF` as a 32-bit value), per
byte `crc = (crc >>> 8) ^ crcTable[(crc ^ data[i]) & 0xff]`, final
`(crc ^ -1) >>> 0`. -/
def crc32 (data : List Nat) : Nat :=
  (data.foldl (fun crc b => (crc / 256) ^^^ crcTable ((crc ^^^ b) &&& 255)) 4294967295)
    ^^^ 4294967295

/-- Modelled from the spec: the standard bit-level reflected CRC-32
("standard reflected CRC-32 polynomial (0xEDB88320 ..., seed 0xFFFFFFFF,
final complement)"): per byte, XOR the byte into the register and run the
polynomial reduction step 8 times; this is the non-table-driven reference the
table-driven source code is compared against. -/
def crc32_bitwise (data : List Nat) : Nat :=
  (data.foldl (fun crc b => crcIter^[8] (crc ^^^ b)) 4294967295) ^^^ 4294967295

/-! ## Chunk model -/

/-- PNG signature `[137, 80, 78, 71, 13, 10, 26, 10]`. -/
def pngSignature : List Nat := [137, 80, 78, 71, 13, 10, 26, 10]

/-- ASCII bytes of `"IHDR"`. -/
def ihdrType : List Nat := [73, 72, 68, 82]
/-- ASCII bytes of `"IDAT"`. -/
def idatType : List Nat := [73, 68, 65, 84]
/-- ASCII bytes of `"IEND"`. -/
def iendType : List Nat := [73, 69, 78, 68]
/-- ASCII bytes of `"acTL"`. -/
def actlType : List Nat := [97, 99, 84, 76]
/-- ASCII bytes of `"fcTL"`. -/
def fctlType : List Nat := [102, 99, 84, 76]
/-- ASCII bytes of `"fdAT"`. -/
def fdatType : List Nat := [102, 100, 65, 84]

/-- Untyped JavaScript runtime exceptions of the source (see module header). -/
inductive JSException where
  /-- Property access on `undefined` (e.g. `images[0].length` for empty input). -/
  | typeError
  /-- Out-of-bounds `DataView` read (`getUint32` past the buffer end). -/
  | rangeError
  /-- `throw new Error("IHDR chunk not found in the first image")`. -/
  | ihdrNotFound
deriving DecidableEq, Repr

/-- `interface PNGChunk { type: string; data: Uint8Array }` with the ASCII
type tag kept as its bytes. -/
structure PNGChunk where
  type : List Nat
  data : List Nat
deriving DecidableEq, Repr

/-! ## Chunk codec -/

/-- The `while (offset < pngData.length)` loop body of `extractAllChunks`.
The loop advances `offset` by `chunkLength + 12 ≥ 12` per iteration and only
continues while `offset < pngData.length`, so it performs at most
`pngData.length` iterations; the `fuel` parameter (initialised to
`pngData.length + 1` below) therefore never reaches 0 before the loop exits
on its own, and the embedding is exact. -/
def extractLoop (pngData : List Nat) : Nat → Nat → Except JSException (List PNGChunk)
  | _offset, 0 => .ok []
  | offset, fuel + 1 =>
    if offset < pngData.length then
      -- `new DataView(pngData.buffer, offset).getUint32(0)` throws a
      -- RangeError when fewer than 4 bytes remain.
      if offset + 4 ≤ pngData.length then
        let chunkLength := readU32 pngData offset
        let chunkType := slice pngData (offset + 4) (offset + 8)
        let chunkData := slice pngData (offset + 8) (offset + 8 + chunkLength)
        if chunkType = iendType then
          .ok [⟨chunkType, chunkData⟩]
        else
          match extractLoop pngData (offset + chunkLength + 12) fuel with
          | .ok rest => .ok (⟨chunkType, chunkData⟩ :: rest)
          | .error e => .error e
      else .error .rangeError
    else .ok []

/-- `extractAllChunks`: starts at offset 8 (skipping the signature). -/
def extractAllChunks (pngData : List Nat) : Except JSException (List PNGChunk) :=
  extractLoop pngData 8 (pngData.length + 1)

/-- `createChunk`: length word, type tag, payload and CRC assembled with
`Uint8Array.set` into a zero-initialised buffer, exactly as in the source. -/
def createChunk (type data : List Nat) : List Nat :=
  let length := setAt (List.replicate 4 0) (writeU32 data.length) 0
  let typeArray := type
  let crcData := setAt (setAt (List.replicate (typeArray.length + data.length) 0) typeArray 0)
    data typeArray.length
  let crc := setAt (List.replicate 4 0) (writeU32 (crc32 crcData)) 0
  let chunk := List.replicate (length.length + typeArray.length + data.length + crc.length) 0
  let chunk := setAt chunk length 0
  let chunk := setAt chunk typeArray length.length
  let chunk := setAt chunk data (length.length + typeArray.length)
  let chunk := setAt chunk crc (length.length + typeArray.length + data.length)
  chunk

/-! ## Animation chunk builders -/

/-- `createActlChunk`: 8-byte payload `{frame count, loop count 0}`. -/
def createActlChunk (numFrames : Nat) : List Nat :=
  let data := List.replicate 8 0
  let data := setAt data (writeU32 numFrames) 0
  let data := setAt data (writeU32 0) 4
  createChunk actlType data

/-- The 26-byte `fcTL` payload built by `createFctlChunk`. -/
def fctlData (sequenceNumber width height delay : Nat) : List Nat :=
  let data := List.replicate 26 0
  let data := setAt data (writeU32 sequenceNumber) 0
  let data := setAt data (writeU32 width) 4
  let data := setAt data (writeU32 height) 8
  let data := setAt data (writeU32 0) 12
  let data := setAt data (writeU32 0) 16
  let data := setAt data (writeU16 delay) 20
  let data := setAt data (writeU16 1000) 22
  let data := setAt data [0] 24
  let data := setAt data [0] 25
  data

/-- `createFctlChunk`. -/
def createFctlChunk (sequenceNumber width height delay : Nat) : List Nat :=
  createChunk fctlType (fctlData sequenceNumber width height delay)

/-- `createFdatChunks`: each IDAT payload is prefixed with the next sequence
number and framed as an `fdAT` chunk. -/
def createFdatChunks (idatChunks : List (List Nat)) (startSequenceNumber : Nat) :
    List (List Nat) :=
  idatChunks.mapIdx fun index idatChunk =>
    createChunk fdatType
      (setAt (setAt (List.replicate (idatChunk.length + 4) 0)
        (writeU32 (startSequenceNumber + index)) 0) idatChunk 4)

/-- `concatenateUint8Arrays`: sequential copy into one output buffer. -/
def concatenateUint8Arrays (arrays : List (List Nat)) : List Nat :=
  arrays.foldl (fun result arr => result ++ arr) []

/-! ## Assembler (`createAPNG` / `convertToAPNG`) -/

/-- The `for (let i = 0; i < images.length; i++)` loop of `createAPNG`,
with the loop index `i` and the mutable `sequenceNumber` threaded explicitly. -/
def processFrames (width height delay : Nat) :
    List (List Nat) → Nat → Nat → Except JSException (List (List Nat))
  | [], _, _ => .ok []
  | image :: rest, i, sequenceNumber =>
    let fctl := createFctlChunk sequenceNumber width height delay
    match extractAllChunks image with
    | .error e => .error e
    | .ok imageChunks =>
      let idatChunks := (imageChunks.filter (fun c => c.type = idatType)).map (fun c => c.data)
      if i = 0 then
        match processFrames width height delay rest (i + 1) (sequenceNumber + 1) with
        | .error e => .error e
        | .ok tail => .ok ((fctl :: idatChunks.map (fun d => createChunk idatType d)) ++ tail)
      else
        match processFrames width height delay rest (i + 1)
            (sequenceNumber + 1 + idatChunks.length) with
        | .error e => .error e
        | .ok tail => .ok ((fctl :: createFdatChunks idatChunks (sequenceNumber + 1)) ++ tail)

/-- `createAPNG` (the `assemble` operation of the spec): may end in any of the
modelled exceptions; on success returns the output byte buffer. -/
def createAPNG (images : List (List Nat)) (delay : Nat) : Except JSException (List Nat) :=
  match images with
  | [] =>
    -- `images[0]` is `undefined`; `extractAllChunks` then dereferences
    -- `pngData.length` on `undefined` and throws a TypeError.
    .error .typeError
  | firstImage :: _ =>
    match extractAllChunks firstImage with
    | .error e => .error e
    | .ok firstImageChunks =>
      match firstImageChunks.find? (fun c => c.type = ihdrType) with
      | none => .error .ihdrNotFound
      | some ihdrChunk =>
        -- `getUint32(0)` / `getUint32(4)` on the (freshly copied) IHDR payload
        -- throw a RangeError when it is shorter than 8 bytes.
        if 8 ≤ ihdrChunk.data.length then
          let width := readU32 ihdrChunk.data 0
          let height := readU32 ihdrChunk.data 4
          let preChunks := (firstImageChunks.takeWhile (fun c => ¬ c.type = idatType)).map
            (fun c => createChunk c.type c.data)
          match processFrames width height delay images 0 0 with
          | .error e => .error e
          | .ok frames =>
            .ok (concatenateUint8Arrays
              (([pngSignature] ++ preChunks ++ [createActlChunk images.length]) ++ frames ++
                [createChunk iendType []]))
        else .error .rangeError

/-- `convertToAPNG`: wraps `createAPNG` in `try/catch`, returning `undefined`
(`none`) on any thrown error; the object-URL and timing parts are
host-environment effects outside the byte-level model. -/
def convertToAPNG (images : List (List Nat)) (delay : Nat := 100) : Option (List Nat) :=
  match createAPNG images delay with
  | .ok binary => some binary
  | .error _ => none

/-! ## Proof-layer accessors (decidable views of the `Except` results) -/

/-- Chunk list of a successful parse (`[]` when the parse throws). -/
def parsedOf (img : List Nat) : List PNGChunk :=
  match extractAllChunks img with
  | .ok cs => cs
  | .error _ => []

/-- Whether `extractAllChunks` succeeds. -/
def parsesOk (img : List Nat) : Bool :=
  match extractAllChunks img with
  | .ok _ => true
  | .error _ => false

/-- Output bytes of a successful `createAPNG` call (`[]` when it throws). -/
def apngBytes (images : List (List Nat)) (delay : Nat) : List Nat :=
  match createAPNG images delay with
  | .ok out => out
  | .error _ => []

/-- Whether `createAPNG` succeeds. -/
def apngOk (images : List (List Nat)) (delay : Nat) : Bool :=
  match createAPNG images delay with
  | .ok _ => true
  | .error _ => false


/-! ## Logical chunk-level view of the assembler output (proof layer)

These definitions are not part of the source embedding; they give the
(type, payload) record structure of the emitted stream, against which the
byte-level functions above are proved equal. -/

/-- Wire framing of one logical chunk. -/
def encodeChunk (c : PNGChunk) : List Nat :=
  createChunk c.type c.data

/-- Wire framing of a list of logical chunks. -/
def encodeBlocks (bs : List PNGChunk) : List Nat :=
  (bs.map encodeChunk).flatten

/-- The prefix of a chunk list up to and including the first end-marker
(the parser stops there). -/
def takeThroughIend : List PNGChunk → List PNGChunk
  | [] => []
  | c :: cs => if c.type = iendType then [c] else c :: takeThroughIend cs

/-- The image-data payloads of a chunk stream, in order. -/
def idatsOf (cs : List PNGChunk) : List (List Nat) :=
  (cs.filter (fun c => c.type = idatType)).map (fun c => c.data)

/-- Logical frame-data records for the given payloads, with consecutive
sequence numbers starting at `seq`. -/
def fdatBlocks (seq : Nat) : List (List Nat) → List PNGChunk
  | [] => []
  | d :: rest => ⟨fdatType, writeU32 seq ++ d⟩ :: fdatBlocks (seq + 1) rest

/-- Normal form of the 26-byte frame-control payload. -/
def fctlPayload (s w h d : Nat) : List Nat :=
  writeU32 s ++ (writeU32 w ++ (writeU32 h ++ (writeU32 0 ++ (writeU32 0 ++
    (writeU16 d ++ (writeU16 1000 ++ [0, 0]))))))

/-- Normal form of the 8-byte animation-control payload. -/
def actlPayload (n : Nat) : List Nat :=
  writeU32 n ++ writeU32 0

/-- Logical chunks emitted by the per-frame loop of `createAPNG`. -/
def frameBlocks (width height delay : Nat) :
    List (List Nat) → Nat → Nat → List PNGChunk
  | [], _, _ => []
  | img :: rest, i, seq =>
    let idats := idatsOf (parsedOf img)
    if i = 0 then
      (⟨fctlType, fctlPayload seq width height delay⟩ ::
        idats.map (fun d => ⟨idatType, d⟩)) ++
        frameBlocks width height delay rest (i + 1) (seq + 1)
    else
      (⟨fctlType, fctlPayload seq width height delay⟩ :: fdatBlocks (seq + 1) idats) ++
        frameBlocks width height delay rest (i + 1) (seq + 1 + idats.length)

/-- Logical chunks of the whole `createAPNG` output (meaningful when the
call succeeds). -/
def outBlocks (images : List (List Nat)) (delay : Nat) : List PNGChunk :=
  match images with
  | [] => []
  | first :: _ =>
    let cs := parsedOf first
    match cs.find? (fun c => c.type = ihdrType) with
    | none => []
    | some ihdr =>
      (cs.takeWhile (fun c => ¬ c.type = idatType) ++
        (⟨actlType, actlPayload images.length⟩ ::
          frameBlocks (readU32 ihdr.data 0) (readU32 ihdr.data 4) delay images 0 0)) ++
        [⟨iendType, []⟩]

/-- The sequence numbers carried by frame-control and frame-data records,
in emission order. -/
def seqNums (cs : List PNGChunk) : List Nat :=
  cs.filterMap (fun c =>
    if c.type = fctlType ∨ c.type = fdatType then some (readU32 c.data 0) else none)

/-- Number of image-data chunks of one parsed image. -/
def idatCount (img : List Nat) : Nat :=
  (idatsOf (parsedOf img)).length

/-- Sequence numbers consumed by the frame loop from loop index `i` on. -/
def seqCountFrom : List (List Nat) → Nat → Nat
  | [], _ => 0
  | img :: rest, i => (if i = 0 then 1 else 1 + idatCount img) + seqCountFrom rest (i + 1)

/-- Total sequence numbers consumed by a whole call:
frames + image-data chunks of the non-key frames. -/
def seqTotal (images : List (List Nat)) : Nat :=
  seqCountFrom images 0

/-! ## Well-formedness predicates (hypotheses of the claims) -/

/-- A parsed chunk with a 4-byte ASCII type tag and a payload small enough
that even its 4-byte-prefixed frame-data wrapper fits the 32-bit length
field. -/
def goodChunk (c : PNGChunk) : Prop :=
  c.type.length = 4 ∧ (∀ b ∈ c.type, b < 128) ∧ c.data.length + 4 < 4294967296

/-- A well-formed image buffer: it parses without an exception and all its
chunks are well formed. -/
def goodImage (img : List Nat) : Prop :=
  parsesOk img = true ∧ ∀ c ∈ parsedOf img, goodChunk c

/-- The header chunk position of a parsed image (its first chunk in any
well-formed PNG). -/
def keyHeader (img : List Nat) : PNGChunk :=
  (parsedOf img).headD ⟨[], []⟩

/-- A well-formed key frame: its first chunk is a header chunk with at least
8 payload bytes, and the chunks preceding its first image-data chunk contain
no end-marker and no animation chunks. -/
def goodKeyFrame (img : List Nat) : Prop :=
  goodImage img ∧ parsedOf img ≠ [] ∧
  (keyHeader img).type = ihdrType ∧ 8 ≤ (keyHeader img).data.length ∧
  ∀ c ∈ (parsedOf img).takeWhile (fun c => ¬ c.type = idatType),
    c.type ≠ iendType ∧ c.type ≠ actlType ∧ c.type ≠ fctlType ∧ c.type ≠ fdatType

/-- A well-formed, non-empty input sequence for `createAPNG`. -/
def goodInput (images : List (List Nat)) : Prop :=
  images ≠ [] ∧ goodKeyFrame (images.headD []) ∧ ∀ img ∈ images, goodImage img

/-- All images carry a leading header chunk declaring the same width and
height as the key frame. -/
def sameDims (images : List (List Nat)) : Prop :=
  ∀ img ∈ images, parsedOf img ≠ [] ∧ (keyHeader img).type = ihdrType ∧
    8 ≤ (keyHeader img).data.length ∧
    readU32 (keyHeader img).data 0 = readU32 (keyHeader (images.headD [])).data 0 ∧
    readU32 (keyHeader img).data 4 = readU32 (keyHeader (images.headD [])).data 4

/-! ## Concrete witness data -/

/-- A minimal 1×1 PNG-shaped image: signature, header, one image-data chunk,
end marker. -/
def testImg : List Nat :=
  pngSignature ++ createChunk ihdrType (writeU32 1 ++ writeU32 1 ++ [8, 6, 0, 0, 0]) ++
    createChunk idatType [1, 2, 3] ++ createChunk iendType []

deriving instance DecidableEq for Except

instance decidableGoodChunk (c : PNGChunk) : Decidable (goodChunk c) := by
  unfold goodChunk
  infer_instance

instance decidableGoodImage (img : List Nat) : Decidable (goodImage img) := by
  unfold goodImage
  infer_instance

instance decidableGoodKeyFrame (img : List Nat) : Decidable (goodKeyFrame img) := by
  unfold goodKeyFrame
  infer_instance

instance decidableGoodInput (images : List (List Nat)) : Decidable (goodInput images) := by
  unfold goodInput
  infer_instance

instance decidableSameDims (images : List (List Nat)) : Decidable (sameDims images) := by
  unfold sameDims
  infer_instance

/-! # Theorems -/

/-! ## Byte- and list-level lemmas -/

@[simp] theorem length_writeU32 (v : Nat) : (writeU32 v).length = 4 := rfl

@[simp] theorem length_writeU16 (v : Nat) : (writeU16 v).length = 2 := rfl

theorem take_app (x y : List Nat) : (x ++ y).take x.length = x :=
  List.take_left x y

theorem drop_app (x y : List Nat) : (x ++ y).drop x.length = y :=
  List.drop_left x y

theorem drop_append_len (x y : List Nat) (n : Nat) :
    (x ++ y).drop (x.length + n) = y.drop n := by
  induction x with
  | nil => simp
  | cons a t ih => simp [Nat.succ_add, ih]

theorem take_append_len (x y : List Nat) (n : Nat) :
    (x ++ y).take (x.length + n) = x ++ y.take n := by
  induction x with
  | nil => simp
  | cons a t ih => simpa [Nat.succ_add] using ih

theorem getD_append_len (x y : List Nat) (n : Nat) :
    (x ++ y).getD (x.length + n) 0 = y.getD n 0 := by
  induction x with
  | nil => simp
  | cons a t ih => simpa [Nat.succ_add] using ih

theorem drop_replicate0 (k n : Nat) :
    (List.replicate n (0 : Nat)).drop k = List.replicate (n - k) 0 := by
  induction k generalizing n with
  | zero => simp
  | succ k ih =>
    cases n with
    | zero => simp
    | succ n => simp [List.replicate_succ, ih n]

theorem setAt_fill (src : List Nat) (m : Nat) :
    setAt (List.replicate m 0) src 0 = src ++ List.replicate (m - src.length) 0 := by
  simp [setAt, drop_replicate0]

theorem setAt_fill_at (x src : List Nat) (m n : Nat) (h : x.length = n) :
    setAt (x ++ List.replicate m 0) src n =
      x ++ (src ++ List.replicate (m - src.length) 0) := by
  subst h
  simp [setAt, take_app, drop_append_len, drop_replicate0]

theorem setAt_mid (x z src : List Nat) (n : Nat) (h : x.length = n) :
    setAt (x ++ z) src n = x ++ (src ++ z.drop src.length) := by
  subst h
  simp [setAt, take_app, drop_append_len]

theorem readU32_append (x y : List Nat) : readU32 (x ++ y) x.length = readU32 y 0 := by
  have h0 : (x ++ y).getD x.length 0 = y.getD 0 0 := by
    simpa using getD_append_len x y 0
  have h1 := getD_append_len x y 1
  have h2 := getD_append_len x y 2
  have h3 := getD_append_len x y 3
  simp only [readU32, Nat.zero_add]
  rw [h0, h1, h2, h3]

theorem readU16_append (x y : List Nat) : readU16 (x ++ y) x.length = readU16 y 0 := by
  have h0 : (x ++ y).getD x.length 0 = y.getD 0 0 := by
    simpa using getD_append_len x y 0
  have h1 := getD_append_len x y 1
  simp only [readU16, Nat.zero_add]
  rw [h0, h1]

theorem readU32_writeU32 (v : Nat) (rest : List Nat) :
    readU32 (writeU32 v ++ rest) 0 = v % 4294967296 := by
  show v / 16777216 % 256 * 16777216 + v / 65536 % 256 * 65536 + v / 256 % 256 * 256 +
    v % 256 = v % 4294967296
  omega

theorem readU16_writeU16 (v : Nat) (rest : List Nat) :
    readU16 (writeU16 v ++ rest) 0 = v % 65536 := by
  show v / 256 % 256 * 256 + v % 256 = v % 65536
  omega

/-! ## Normal forms of the chunk builders -/

theorem createChunk_eq (type data : List Nat) :
    createChunk type data =
      writeU32 data.length ++ (type ++ (data ++ writeU32 (crc32 (type ++ data)))) := by
  have hcrcData :
      setAt (setAt (List.replicate (type.length + data.length) 0) type 0) data type.length
        = type ++ data := by
    rw [setAt_fill, Nat.add_sub_cancel_left,
      setAt_fill_at type data data.length type.length rfl]
    simp
  have hlen : setAt (List.replicate 4 0) (writeU32 data.length) 0 = writeU32 data.length := by
    rw [setAt_fill]; simp
  have hcrc : setAt (List.replicate 4 0) (writeU32 (crc32 (type ++ data))) 0
      = writeU32 (crc32 (type ++ data)) := by
    rw [setAt_fill]; simp
  simp only [createChunk, hcrcData, hlen, hcrc, length_writeU32]
  rw [setAt_fill, length_writeU32, Nat.add_sub_cancel,
    setAt_fill_at (writeU32 data.length) type (4 + type.length + data.length) 4 rfl,
    show 4 + type.length + data.length - type.length = data.length + 4 from by omega,
    ← List.append_assoc,
    setAt_fill_at (writeU32 data.length ++ type) data (data.length + 4) (4 + type.length)
      (by simp),
    show data.length + 4 - data.length = 4 from by omega,
    ← List.append_assoc,
    setAt_fill_at ((writeU32 data.length ++ type) ++ data) (writeU32 (crc32 (type ++ data))) 4
      (4 + type.length + data.length) (by simp [Nat.add_assoc])]
  simp [List.append_assoc]

theorem fctlData_eq (s w h d : Nat) : fctlData s w h d = fctlPayload s w h d := by
  simp [fctlData, fctlPayload, setAt, writeU32, writeU16, List.replicate_succ]

theorem createActlChunk_eq (n : Nat) :
    createActlChunk n = createChunk actlType (actlPayload n) := by
  have : setAt (setAt (List.replicate 8 0) (writeU32 n) 0) (writeU32 0) 4 = actlPayload n := by
    simp [actlPayload, setAt, writeU32, List.replicate_succ]
  rw [createActlChunk, this]

theorem fdatData_eq (sn : Nat) (d : List Nat) :
    setAt (setAt (List.replicate (d.length + 4) 0) (writeU32 sn) 0) d 4 = writeU32 sn ++ d := by
  rw [setAt_fill, length_writeU32, Nat.add_sub_cancel,
    setAt_fill_at (writeU32 sn) d d.length 4 rfl]
  simp

theorem createFdatChunks_eq (idats : List (List Nat)) (start : Nat) :
    createFdatChunks idats start = (fdatBlocks start idats).map encodeChunk := by
  induction idats generalizing start with
  | nil => rfl
  | cons d rest ih =>
    show List.mapIdx _ (d :: rest) = _
    simp only [List.mapIdx_cons]
    refine congrArg₂ _ ?_ ?_
    · rw [Nat.add_zero, fdatData_eq]
      rfl
    · rw [show (fun (i : Nat) (c : List Nat) => createChunk fdatType
          (setAt (setAt (List.replicate (c.length + 4) 0) (writeU32 (start + (i + 1))) 0) c 4))
          = fun i c => createChunk fdatType
          (setAt (setAt (List.replicate (c.length + 4) 0) (writeU32 (start + 1 + i)) 0) c 4)
        from by funext i c; rw [show start + (i + 1) = start + 1 + i from by omega]]
      exact ih (start + 1)

/-! ## CRC-32: the table-driven source computation equals the bit-level
standard reflected CRC-32 -/

theorem xor_shuffle (x y z : Nat) : x ^^^ (y ^^^ z) = y ^^^ (x ^^^ z) := by
  rw [← Nat.xor_assoc, Nat.xor_comm x y, Nat.xor_assoc]

theorem crcIter_linear (a b : Nat) : crcIter (a ^^^ b) = crcIter a ^^^ crcIter b := by
  unfold crcIter
  have hdiv : (a ^^^ b) / 2 = a / 2 ^^^ b / 2 := Nat.xor_div_two
  have hmod : (a ^^^ b) % 2 = (a + b) % 2 := Nat.xor_mod_two_eq
  rcases Nat.mod_two_eq_zero_or_one a with ha | ha <;>
    rcases Nat.mod_two_eq_zero_or_one b with hb | hb
  · simp [ha, hb, hmod, hdiv, Nat.add_mod]
  · simp [ha, hb, hmod, hdiv, Nat.add_mod, xor_shuffle]
  · simp [ha, hb, hmod, hdiv, Nat.add_mod, Nat.xor_assoc]
  · have hab : (a + b) % 2 = 0 := by omega
    rw [hmod, hab, hdiv, ha, hb, if_neg (by norm_num), if_pos rfl, if_pos rfl,
      Nat.xor_assoc 3988292384 (a / 2) (3988292384 ^^^ b / 2),
      xor_shuffle (a / 2) 3988292384 (b / 2),
      ← Nat.xor_assoc 3988292384 3988292384 (a / 2 ^^^ b / 2),
      Nat.xor_self, Nat.zero_xor]

theorem crcIter_pow_linear (n a b : Nat) :
    crcIter^[n] (a ^^^ b) = crcIter^[n] a ^^^ crcIter^[n] b := by
  induction n generalizing a b with
  | zero => rfl
  | succ n ih => simp [Function.iterate_succ_apply, crcIter_linear, ih]

theorem crcIter_even (c : Nat) (h : c % 2 = 0) : crcIter c = c / 2 := by
  unfold crcIter
  simp [h]

theorem crcIter_pow_of_mod (k : Nat) : ∀ c, c % 2 ^ k = 0 → crcIter^[k] c = c / 2 ^ k := by
  induction k with
  | zero => intro c _; simp
  | succ k ih =>
    intro c h
    obtain ⟨m, hm⟩ := Nat.dvd_of_mod_eq_zero h
    subst hm
    have h2 : 2 ^ (k + 1) * m = 2 * (2 ^ k * m) := by ring
    have hc : crcIter (2 ^ (k + 1) * m) = 2 ^ k * m := by
      rw [h2, crcIter_even _ (Nat.mul_mod_right 2 _),
        Nat.mul_div_cancel_left _ (by norm_num : (0:Nat) < 2)]
    rw [Function.iterate_succ_apply, hc, ih _ (Nat.mul_mod_right _ m),
      Nat.mul_div_cancel_left m (Nat.two_pow_pos k),
      Nat.mul_div_cancel_left m (Nat.two_pow_pos (k + 1))]

theorem split_shift (y : Nat) : (y >>> 8) <<< 8 ^^^ y % 256 = y := by
  apply Nat.eq_of_testBit_eq
  intro i
  have hmod : (y % 256).testBit i = (decide (i < 8) && y.testBit i) := by
    rw [show (256 : Nat) = 2 ^ 8 from by norm_num]
    exact Nat.testBit_mod_two_pow y 8 i
  rcases Nat.lt_or_ge i 8 with hi | hi
  · have h8 : ¬ 8 ≤ i := Nat.not_le.mpr hi
    simp [Nat.testBit_xor, Nat.testBit_shiftLeft, hmod, hi, h8]
  · have h8 : ¬ i < 8 := Nat.not_lt.mpr hi
    simp [Nat.testBit_xor, Nat.testBit_shiftLeft, Nat.testBit_shiftRight, hmod, hi, h8,
      show 8 + (i - 8) = i from by omega]

theorem crcIter_pow_byte (y : Nat) :
    crcIter^[8] y = crcTable (y &&& 255) ^^^ y / 256 := by
  have h255 : y &&& 255 = y % 256 := by
    have h := Nat.and_pow_two_sub_one_eq_mod y 8
    norm_num at h
    exact h
  have hhi_mod : ((y >>> 8) <<< 8) % 2 ^ 8 = 0 := by
    simp [Nat.shiftLeft_eq, Nat.mul_mod_left]
  have hhi_div : ((y >>> 8) <<< 8) / 2 ^ 8 = y / 256 := by
    rw [Nat.shiftLeft_eq, Nat.mul_div_cancel _ (Nat.two_pow_pos 8),
      Nat.shiftRight_eq_div_pow]
  calc crcIter^[8] y
      = crcIter^[8] ((y >>> 8) <<< 8 ^^^ y % 256) := by rw [split_shift]
    _ = crcIter^[8] ((y >>> 8) <<< 8) ^^^ crcIter^[8] (y % 256) := crcIter_pow_linear 8 _ _
    _ = y / 256 ^^^ crcTable (y % 256) := by
        rw [crcIter_pow_of_mod 8 _ hhi_mod, hhi_div]
        simp only [crcTable]
    _ = crcTable (y &&& 255) ^^^ y / 256 := by rw [h255, Nat.xor_comm]

theorem crcStep_eq (crc b : Nat) (hb : b < 256) :
    crc / 256 ^^^ crcTable ((crc ^^^ b) &&& 255) = crcIter^[8] (crc ^^^ b) := by
  rw [crcIter_pow_byte (crc ^^^ b)]
  have hshift : (crc ^^^ b) >>> 8 = crc >>> 8 := by
    apply Nat.eq_of_testBit_eq
    intro i
    have hb' : b < 2 ^ (8 + i) := by
      calc b < 256 := hb
        _ = 2 ^ 8 := by norm_num
        _ ≤ 2 ^ (8 + i) := Nat.pow_le_pow_right (by norm_num) (by omega)
    simp [Nat.testBit_shiftRight, Nat.testBit_xor, Nat.testBit_lt_two_pow hb']
  have hdiv : (crc ^^^ b) / 256 = crc / 256 := by
    have h := hshift
    rw [Nat.shiftRight_eq_div_pow, Nat.shiftRight_eq_div_pow] at h
    norm_num at h
    exact h
  rw [hdiv, Nat.xor_comm]

theorem crcFold_eq (l : List Nat) : ∀ crc, (∀ b ∈ l, b < 256) →
    l.foldl (fun crc b => crc / 256 ^^^ crcTable ((crc ^^^ b) &&& 255)) crc =
      l.foldl (fun crc b => crcIter^[8] (crc ^^^ b)) crc := by
  induction l with
  | nil => intro crc _; rfl
  | cons b l ih =>
    intro crc h
    have hb : b < 256 := h b (List.mem_cons_self b l)
    have hl : ∀ x ∈ l, x < 256 := fun x hx => h x (List.mem_cons_of_mem b hx)
    simp only [List.foldl_cons]
    rw [crcStep_eq crc b hb, ih _ hl]

theorem crc32_eq_bitwise (data : List Nat) (hdata : ∀ b ∈ data, b < 256) :
    crc32 data = crc32_bitwise data := by
  unfold crc32 crc32_bitwise
  rw [crcFold_eq data 4294967295 hdata]

/-! ## Parsing the serialized chunk stream back -/

theorem encodeChunk_mk (ct cd : List Nat) : encodeChunk ⟨ct, cd⟩ = createChunk ct cd := rfl

theorem length_encodeChunk (c : PNGChunk) :
    (encodeChunk c).length = 8 + c.type.length + c.data.length := by
  rcases c with ⟨ct, cd⟩
  rw [encodeChunk_mk, createChunk_eq]
  simp only [List.length_append, length_writeU32]
  omega

theorem encodeBlocks_nil : encodeBlocks [] = [] := rfl

theorem encodeBlocks_cons (c : PNGChunk) (cs : List PNGChunk) :
    encodeBlocks (c :: cs) = encodeChunk c ++ encodeBlocks cs := by
  simp [encodeBlocks]

theorem encodeBlocks_append (xs ys : List PNGChunk) :
    encodeBlocks (xs ++ ys) = encodeBlocks xs ++ encodeBlocks ys := by
  simp [encodeBlocks]

theorem blocks_le_length (bs : List PNGChunk) : bs.length ≤ (encodeBlocks bs).length := by
  induction bs with
  | nil => simp [encodeBlocks]
  | cons c cs ih =>
    rw [encodeBlocks_cons]
    simp only [List.length_cons, List.length_append, length_encodeChunk]
    omega

theorem extractLoop_encode (bs : List PNGChunk) : ∀ (pre : List Nat) (fuel : Nat),
    (∀ c ∈ bs, c.type.length = 4 ∧ c.data.length < 4294967296) →
    bs.length < fuel →
    extractLoop (pre ++ encodeBlocks bs) pre.length fuel = .ok (takeThroughIend bs) := by
  induction bs with
  | nil =>
    intro pre fuel _ hfuel
    match fuel, hfuel with
    | fuel + 1, _ =>
      have hb : pre ++ encodeBlocks [] = pre := by simp [encodeBlocks]
      rw [hb]
      simp [extractLoop, takeThroughIend]
  | cons c cs ih =>
    rcases c with ⟨ct, cd⟩
    intro pre fuel hwf hfuel
    obtain ⟨htype, hdata⟩ := hwf ⟨ct, cd⟩ (List.mem_cons_self _ _)
    simp only at htype hdata
    match fuel, hfuel with
    | fuel + 1, hfuel =>
    have hbuf : pre ++ encodeBlocks (⟨ct, cd⟩ :: cs) =
        pre ++ (writeU32 cd.length ++ (ct ++ (cd ++
          (writeU32 (crc32 (ct ++ cd)) ++ encodeBlocks cs)))) := by
      rw [encodeBlocks_cons, encodeChunk_mk, createChunk_eq]
      simp [List.append_assoc]
    have hread : readU32 (pre ++ (writeU32 cd.length ++ (ct ++ (cd ++
        (writeU32 (crc32 (ct ++ cd)) ++ encodeBlocks cs))))) pre.length = cd.length := by
      rw [readU32_append, readU32_writeU32, Nat.mod_eq_of_lt hdata]
    have hdrop4 : (writeU32 cd.length ++ (ct ++ (cd ++
        (writeU32 (crc32 (ct ++ cd)) ++ encodeBlocks cs)))).drop 4 =
        ct ++ (cd ++ (writeU32 (crc32 (ct ++ cd)) ++ encodeBlocks cs)) := by
      have h := drop_append_len (writeU32 cd.length)
        (ct ++ (cd ++ (writeU32 (crc32 (ct ++ cd)) ++ encodeBlocks cs))) 0
      simp only [length_writeU32, Nat.add_zero, List.drop_zero] at h
      exact h
    have htypeslice : slice (pre ++ (writeU32 cd.length ++ (ct ++ (cd ++
        (writeU32 (crc32 (ct ++ cd)) ++ encodeBlocks cs)))))
        (pre.length + 4) (pre.length + 8) = ct := by
      unfold slice
      rw [show pre.length + 8 - (pre.length + 4) = 4 from by omega,
        drop_append_len, hdrop4]
      exact List.take_left' htype
    have hdataslice : slice (pre ++ (writeU32 cd.length ++ (ct ++ (cd ++
        (writeU32 (crc32 (ct ++ cd)) ++ encodeBlocks cs)))))
        (pre.length + 8) (pre.length + 8 + cd.length) = cd := by
      unfold slice
      rw [show pre.length + 8 + cd.length - (pre.length + 8) = cd.length from by omega,
        drop_append_len]
      have h8 : (writeU32 cd.length ++ (ct ++ (cd ++
          (writeU32 (crc32 (ct ++ cd)) ++ encodeBlocks cs)))).drop 8 =
          cd ++ (writeU32 (crc32 (ct ++ cd)) ++ encodeBlocks cs) := by
        have h := drop_append_len (writeU32 cd.length)
          (ct ++ (cd ++ (writeU32 (crc32 (ct ++ cd)) ++ encodeBlocks cs))) 4
        simp only [length_writeU32] at h
        rw [h, List.drop_left' htype]
      rw [h8]
      exact List.take_left cd _
    have hlt : pre.length < (pre ++ (writeU32 cd.length ++ (ct ++ (cd ++
        (writeU32 (crc32 (ct ++ cd)) ++ encodeBlocks cs))))).length := by
      simp
    have hle4 : pre.length + 4 ≤ (pre ++ (writeU32 cd.length ++ (ct ++ (cd ++
        (writeU32 (crc32 (ct ++ cd)) ++ encodeBlocks cs))))).length := by
      simp
    rw [hbuf, extractLoop]
    simp only [if_pos hlt, if_pos hle4, hread, htypeslice, hdataslice]
    by_cases hIend : ct = iendType
    · rw [if_pos hIend]
      simp [takeThroughIend, hIend]
    · rw [if_neg hIend]
      have hrest : extractLoop (pre ++ (writeU32 cd.length ++ (ct ++ (cd ++
          (writeU32 (crc32 (ct ++ cd)) ++ encodeBlocks cs)))))
          (pre.length + cd.length + 12) fuel = .ok (takeThroughIend cs) := by
        have hsplit : pre ++ (writeU32 cd.length ++ (ct ++ (cd ++
            (writeU32 (crc32 (ct ++ cd)) ++ encodeBlocks cs)))) =
            (pre ++ (writeU32 cd.length ++ (ct ++ (cd ++ writeU32 (crc32 (ct ++ cd)))))) ++
              encodeBlocks cs := by
          simp [List.append_assoc]
        have hplen : (pre ++ (writeU32 cd.length ++ (ct ++ (cd ++
            writeU32 (crc32 (ct ++ cd)))))).length = pre.length + cd.length + 12 := by
          simp [htype]
          omega
        rw [hsplit, ← hplen]
        exact ih _ fuel (fun x hx => hwf x (List.mem_cons_of_mem _ hx)) (by
          simp only [List.length_cons] at hfuel
          omega)
      rw [hrest]
      simp [takeThroughIend, hIend]

theorem extractAllChunks_encode (bs : List PNGChunk)
    (hwf : ∀ c ∈ bs, c.type.length = 4 ∧ c.data.length < 4294967296) :
    extractAllChunks (pngSignature ++ encodeBlocks bs) = .ok (takeThroughIend bs) := by
  unfold extractAllChunks
  have hlen8 : pngSignature.length = 8 := rfl
  rw [← hlen8]
  refine extractLoop_encode bs pngSignature _ hwf ?_
  have h := blocks_le_length bs
  simp only [List.length_append]
  omega

theorem takeThroughIend_full (bs : List PNGChunk) (e : PNGChunk)
    (h : ∀ c ∈ bs, c.type ≠ iendType) (he : e.type = iendType) :
    takeThroughIend (bs ++ [e]) = bs ++ [e] := by
  induction bs with
  | nil => simp [takeThroughIend, he]
  | cons c cs ih =>
    have hc : c.type ≠ iendType := h c (List.mem_cons_self _ _)
    simp only [List.cons_append, takeThroughIend, if_neg hc]
    simp [ih (fun x hx => h x (List.mem_cons_of_mem _ hx))]

/-! ## The assembler output as a serialized logical chunk list -/

theorem parsesOk_iff (img : List Nat) :
    parsesOk img = true ↔ extractAllChunks img = .ok (parsedOf img) := by
  unfold parsesOk parsedOf
  cases extractAllChunks img <;> simp

theorem goodImage_parses (img : List Nat) (h : goodImage img) :
    extractAllChunks img = .ok (parsedOf img) := (parsesOk_iff img).mp h.1

theorem concatenate_eq_flatten (arrays : List (List Nat)) :
    concatenateUint8Arrays arrays = arrays.flatten := by
  have hgen : ∀ (l : List (List Nat)) (acc : List Nat),
      l.foldl (fun result arr => result ++ arr) acc = acc ++ l.flatten := by
    intro l
    induction l with
    | nil => intro acc; simp
    | cons a t ih => intro acc; simp [List.foldl_cons, ih]
  unfold concatenateUint8Arrays
  simpa using hgen arrays []

theorem createFctlChunk_eq (s w h d : Nat) :
    createFctlChunk s w h d = createChunk fctlType (fctlPayload s w h d) := by
  unfold createFctlChunk
  rw [fctlData_eq]

theorem encode_actl (n : Nat) :
    encodeChunk ⟨actlType, actlPayload n⟩ = createActlChunk n := by
  rw [encodeChunk_mk, createActlChunk_eq]

theorem processFrames_eq (width height delay : Nat) :
    ∀ (imgs : List (List Nat)) (i seq : Nat),
    (∀ img ∈ imgs, parsesOk img = true) →
    processFrames width height delay imgs i seq =
      .ok ((frameBlocks width height delay imgs i seq).map encodeChunk) := by
  intro imgs
  induction imgs with
  | nil => intro i seq _; rfl
  | cons img rest ih =>
    intro i seq hok
    have h1 : extractAllChunks img = .ok (parsedOf img) :=
      (parsesOk_iff img).mp (hok img (List.mem_cons_self _ _))
    have hrest : ∀ x ∈ rest, parsesOk x = true :=
      fun x hx => hok x (List.mem_cons_of_mem img hx)
    by_cases hi : i = 0
    · subst hi
      simp only [processFrames, h1, if_pos rfl]
      rw [ih 1 (seq + 1) hrest]
      simp only [frameBlocks, idatsOf, if_pos rfl]
      simp [List.map_map, createFctlChunk_eq, Function.comp_def, encodeChunk_mk]
    · simp only [processFrames, h1, if_neg hi, frameBlocks, idatsOf]
      rw [ih (i + 1) (seq + 1 +
        (((parsedOf img).filter (fun c => c.type = idatType)).map (fun c => c.data)).length) hrest]
      simp [createFdatChunks_eq, createFctlChunk_eq, encodeChunk_mk]

theorem createAPNG_eq (images : List (List Nat)) (delay : Nat)
    (hne : images ≠ [])
    (hkey : goodKeyFrame (images.headD []))
    (hall : ∀ img ∈ images, goodImage img) :
    createAPNG images delay = .ok (pngSignature ++ encodeBlocks (outBlocks images delay)) := by
  obtain ⟨first, rest, rfl⟩ : ∃ f r, images = f :: r := by
    cases images with
    | nil => exact absurd rfl hne
    | cons a b => exact ⟨a, b, rfl⟩
  have hkey' : goodKeyFrame first := by simpa using hkey
  obtain ⟨hgoodK, hneK, hheadK, hlenK, hpre⟩ := hkey'
  have hfirst : extractAllChunks first = .ok (parsedOf first) := goodImage_parses first hgoodK
  obtain ⟨hd, t, hht⟩ : ∃ h t, parsedOf first = h :: t := by
    cases hcs : parsedOf first with
    | nil => exact absurd hcs hneK
    | cons a b => exact ⟨a, b, rfl⟩
  have hkeyhd : keyHeader first = hd := by rw [keyHeader, hht]; rfl
  have hhd : hd.type = ihdrType := by rw [← hkeyhd]; exact hheadK
  have hfind : (parsedOf first).find? (fun c => c.type = ihdrType) = some hd := by
    rw [hht]
    exact List.find?_cons_of_pos _ (by simp [hhd])
  have hdlen : 8 ≤ hd.data.length := by rw [← hkeyhd]; exact hlenK
  have hparse : ∀ img ∈ first :: rest, parsesOk img = true := fun img hx => (hall img hx).1
  simp only [createAPNG, hfirst, hfind, if_pos hdlen,
    processFrames_eq (readU32 hd.data 0) (readU32 hd.data 4) delay (first :: rest) 0 0 hparse,
    concatenate_eq_flatten]
  simp only [outBlocks, hfind]
  simp [encodeBlocks, createActlChunk_eq, encodeChunk_mk, List.append_assoc]
  rfl

/-! ## Structure of the emitted logical chunk list -/

theorem fdatBlocks_mem (c : PNGChunk) : ∀ (dds : List (List Nat)) (seq : Nat),
    c ∈ fdatBlocks seq dds →
    c.type = fdatType ∧ ∃ dd ∈ dds, ∃ s, c.data = writeU32 s ++ dd := by
  intro dds
  induction dds with
  | nil => intro seq h; cases h
  | cons d rest ih =>
    intro seq h
    rcases List.mem_cons.mp h with h | h
    · subst h
      exact ⟨rfl, d, List.mem_cons_self _ _, seq, rfl⟩
    · obtain ⟨ht, dd, hdd, s, hs⟩ := ih (seq + 1) h
      exact ⟨ht, dd, List.mem_cons_of_mem _ hdd, s, hs⟩

theorem frameBlocks_mem (width height delay : Nat) :
    ∀ (imgs : List (List Nat)) (i seq : Nat) (c : PNGChunk),
    c ∈ frameBlocks width height delay imgs i seq →
    (c.type = fctlType ∧ ∃ s, c.data = fctlPayload s width height delay) ∨
    ((c.type = idatType ∨ c.type = fdatType) ∧
      ∃ img, img ∈ imgs ∧ ∃ dd, dd ∈ idatsOf (parsedOf img) ∧
        (c.data = dd ∨ ∃ s, c.data = writeU32 s ++ dd)) := by
  intro imgs
  induction imgs with
  | nil => intro i seq c h; cases h
  | cons img rest ih =>
    intro i seq c h
    by_cases hi : i = 0 <;>
      [ (rw [frameBlocks, if_pos hi] at h); (rw [frameBlocks, if_neg hi] at h) ]
    · rcases List.mem_append.mp h with h | h
      · rcases List.mem_cons.mp h with h | h
        · subst h; exact Or.inl ⟨rfl, seq, rfl⟩
        · obtain ⟨dd, hdd, hc⟩ := List.mem_map.mp h
          exact Or.inr ⟨Or.inl (by rw [← hc]), img, List.mem_cons_self _ _, dd, hdd,
            Or.inl (by rw [← hc])⟩
      · rcases ih (i + 1) (seq + 1) c h with h | ⟨ht, img2, h2, rest2⟩
        · exact Or.inl h
        · exact Or.inr ⟨ht, img2, List.mem_cons_of_mem _ h2, rest2⟩
    · rcases List.mem_append.mp h with h | h
      · rcases List.mem_cons.mp h with h | h
        · subst h; exact Or.inl ⟨rfl, seq, rfl⟩
        · obtain ⟨ht, dd, hdd, s, hs⟩ := fdatBlocks_mem c _ (seq + 1) h
          exact Or.inr ⟨Or.inr ht, img, List.mem_cons_self _ _, dd, hdd, Or.inr ⟨s, hs⟩⟩
      · rcases ih (i + 1) (seq + 1 + (idatsOf (parsedOf img)).length) c h with h | ⟨ht, img2, h2, rest2⟩
        · exact Or.inl h
        · exact Or.inr ⟨ht, img2, List.mem_cons_of_mem _ h2, rest2⟩

theorem goodChunk_of_mem_idats (img : List Nat) (dd : List Nat)
    (hgood : goodImage img) (hdd : dd ∈ idatsOf (parsedOf img)) :
    dd.length + 4 < 4294967296 := by
  obtain ⟨c, hc, hcd⟩ := List.mem_map.mp hdd
  have hmem : c ∈ parsedOf img := (List.mem_filter.mp hc).1
  have h2 := (hgood.2 c hmem).2.2
  rw [← hcd]
  exact h2

/-- Payload length of the fcTL record. -/
theorem length_fctlPayload (s w h d : Nat) : (fctlPayload s w h d).length = 26 := by
  simp [fctlPayload]

theorem length_actlPayload (n : Nat) : (actlPayload n).length = 8 := by
  simp [actlPayload]

/-- Well-formedness of all chunks emitted into the output. -/
theorem outBlocks_wf (images : List (List Nat)) (delay : Nat)
    (hne : images ≠ [])
    (hkey : goodKeyFrame (images.headD []))
    (hall : ∀ img ∈ images, goodImage img) :
    ∀ c ∈ outBlocks images delay, c.type.length = 4 ∧ c.data.length < 4294967296 := by
  obtain ⟨first, rest, rfl⟩ : ∃ f r, images = f :: r := by
    cases images with
    | nil => exact absurd rfl hne
    | cons a b => exact ⟨a, b, rfl⟩
  have hkey' : goodKeyFrame first := by simpa using hkey
  obtain ⟨hgoodK, hneK, hheadK, hlenK, hpre⟩ := hkey'
  intro c hc
  rw [outBlocks] at hc
  rcases hmatch : (parsedOf first).find? (fun c => c.type = ihdrType) with _ | ihdr <;>
    rw [hmatch] at hc
  · cases hc
  · rcases List.mem_append.mp hc with hc | hc
    · rcases List.mem_append.mp hc with hc | hc
      · have hmem : c ∈ parsedOf first := List.takeWhile_subset _ hc
        obtain ⟨hg1, _, hg3⟩ := hgoodK.2 c hmem
        exact ⟨hg1, by omega⟩
      · rcases List.mem_cons.mp hc with hc | hc
        · subst hc
          exact ⟨rfl, by rw [length_actlPayload]; norm_num⟩
        · rcases frameBlocks_mem _ _ delay (first :: rest) 0 0 c hc with
            ⟨ht, s, hs⟩ | ⟨ht, img, himg, dd, hdd, hform⟩
          · refine ⟨by rw [ht]; rfl, ?_⟩
            rw [hs, length_fctlPayload]
            norm_num
          · have hbound := goodChunk_of_mem_idats img dd (hall img himg) hdd
            refine ⟨?_, ?_⟩
            · rcases ht with ht | ht <;> rw [ht] <;> rfl
            · rcases hform with hform | ⟨s, hform⟩ <;> rw [hform]
              · omega
              · simp only [List.length_append, length_writeU32]
                omega
    · rcases List.mem_cons.mp hc with hc | hc
      · subst hc
        exact ⟨rfl, by norm_num⟩
      · cases hc

/-- No end-marker occurs before the final one in the emitted chunk list. -/
theorem outBlocks_no_early_iend (images : List (List Nat)) (delay : Nat)
    (hne : images ≠ [])
    (hkey : goodKeyFrame (images.headD [])) :
    ∃ bs, outBlocks images delay = bs ++ [(⟨iendType, []⟩ : PNGChunk)] ∧
      ∀ c ∈ bs, c.type ≠ iendType := by
  obtain ⟨first, rest, rfl⟩ : ∃ f r, images = f :: r := by
    cases images with
    | nil => exact absurd rfl hne
    | cons a b => exact ⟨a, b, rfl⟩
  have hkey' : goodKeyFrame first := by simpa using hkey
  obtain ⟨hgoodK, hneK, hheadK, hlenK, hpre⟩ := hkey'
  obtain ⟨hd, t, hht⟩ : ∃ h t, parsedOf first = h :: t := by
    cases hcs : parsedOf first with
    | nil => exact absurd hcs hneK
    | cons a b => exact ⟨a, b, rfl⟩
  have hkeyhd : keyHeader first = hd := by rw [keyHeader, hht]; rfl
  have hhd : hd.type = ihdrType := by rw [← hkeyhd]; exact hheadK
  have hfind : (parsedOf first).find? (fun c => c.type = ihdrType) = some hd := by
    rw [hht]
    exact List.find?_cons_of_pos _ (by simp [hhd])
  rw [outBlocks, hfind]
  refine ⟨_, rfl, ?_⟩
  intro c hc
  rcases List.mem_append.mp hc with hc | hc
  · exact (hpre c hc).1
  · rcases List.mem_cons.mp hc with hc | hc
    · subst hc
      show actlType ≠ iendType
      decide
    · rcases frameBlocks_mem _ _ delay (first :: rest) 0 0 c hc with
        ⟨ht, _, _⟩ | ⟨ht, _⟩
      · rw [ht]; decide
      · rcases ht with ht | ht <;> rw [ht] <;> decide

/-! ## Re-parsing the assembler output -/

theorem apng_roundtrip (images : List (List Nat)) (delay : Nat)
    (hne : images ≠ [])
    (hkey : goodKeyFrame (images.headD []))
    (hall : ∀ img ∈ images, goodImage img) :
    extractAllChunks (pngSignature ++ encodeBlocks (outBlocks images delay)) =
      .ok (outBlocks images delay) := by
  rw [extractAllChunks_encode (outBlocks images delay) (outBlocks_wf images delay hne hkey hall)]
  obtain ⟨bs, hbs, hno⟩ := outBlocks_no_early_iend images delay hne hkey
  rw [hbs, takeThroughIend_full bs _ hno rfl]

/-! ## Sequence numbers of the emitted stream -/

theorem seqNums_cons (c : PNGChunk) (cs : List PNGChunk) :
    seqNums (c :: cs) =
      (if c.type = fctlType ∨ c.type = fdatType then [readU32 c.data 0] else []) ++
        seqNums cs := by
  simp only [seqNums, List.filterMap_cons]
  by_cases h : c.type = fctlType ∨ c.type = fdatType
  · simp [h]
  · simp [h]

theorem seqNums_append (xs ys : List PNGChunk) :
    seqNums (xs ++ ys) = seqNums xs ++ seqNums ys := by
  simp [seqNums]

theorem seqNums_of_no_frames (l : List PNGChunk)
    (h : ∀ c ∈ l, c.type ≠ fctlType ∧ c.type ≠ fdatType) : seqNums l = [] := by
  rw [seqNums, List.filterMap_eq_nil_iff]
  intro c hc
  rw [if_neg]
  rcases h c hc with ⟨h1, h2⟩
  rintro (h3 | h3) <;> [exact h1 h3; exact h2 h3]

theorem seqNums_fdatBlocks : ∀ (dds : List (List Nat)) (seq : Nat),
    seq + dds.length ≤ 4294967296 →
    seqNums (fdatBlocks seq dds) = List.range' seq dds.length := by
  intro dds
  induction dds with
  | nil => intro seq _; rfl
  | cons d rest ih =>
    intro seq hb
    rw [fdatBlocks, seqNums_cons,
      if_pos (Or.inr rfl : (PNGChunk.mk fdatType (writeU32 seq ++ d)).type = fctlType ∨
        (PNGChunk.mk fdatType (writeU32 seq ++ d)).type = fdatType)]
    have hs : readU32 (PNGChunk.mk fdatType (writeU32 seq ++ d)).data 0 = seq := by
      show readU32 (writeU32 seq ++ d) 0 = seq
      rw [readU32_writeU32]
      simp only [List.length_cons] at hb
      omega
    rw [hs, ih (seq + 1) (by simp only [List.length_cons] at hb; omega)]
    simp only [List.length_cons, List.range'_succ, List.singleton_append]

theorem seqNums_idatMap (dds : List (List Nat)) :
    seqNums (dds.map (fun d => (⟨idatType, d⟩ : PNGChunk))) = [] := by
  apply seqNums_of_no_frames
  intro c hc
  obtain ⟨d, _, hd⟩ := List.mem_map.mp hc
  rw [← hd]
  exact ⟨show idatType ≠ fctlType by decide, show idatType ≠ fdatType by decide⟩

theorem seqCountFrom_cons_zero (img : List Nat) (rest : List (List Nat)) :
    seqCountFrom (img :: rest) 0 = 1 + seqCountFrom rest 1 := by
  rw [seqCountFrom, if_pos rfl]

theorem seqCountFrom_cons_pos (img : List Nat) (rest : List (List Nat)) (i : Nat) (hi : i ≠ 0) :
    seqCountFrom (img :: rest) i = 1 + idatCount img + seqCountFrom rest (i + 1) := by
  rw [seqCountFrom, if_neg hi]

theorem frameBlocks_cons_zero (width height delay : Nat) (img : List Nat)
    (rest : List (List Nat)) (seq : Nat) :
    frameBlocks width height delay (img :: rest) 0 seq =
      (⟨fctlType, fctlPayload seq width height delay⟩ ::
        (idatsOf (parsedOf img)).map (fun dd => (⟨idatType, dd⟩ : PNGChunk))) ++
        frameBlocks width height delay rest 1 (seq + 1) := by
  rw [frameBlocks]
  simp

theorem frameBlocks_cons_pos (width height delay : Nat) (img : List Nat)
    (rest : List (List Nat)) (i seq : Nat) (hi : i ≠ 0) :
    frameBlocks width height delay (img :: rest) i seq =
      (⟨fctlType, fctlPayload seq width height delay⟩ ::
        fdatBlocks (seq + 1) (idatsOf (parsedOf img))) ++
        frameBlocks width height delay rest (i + 1)
          (seq + 1 + (idatsOf (parsedOf img)).length) := by
  rw [frameBlocks]
  simp [hi]

theorem seqNums_frameBlocks (width height delay : Nat) :
    ∀ (imgs : List (List Nat)) (i seq : Nat),
    seq + seqCountFrom imgs i ≤ 4294967296 →
    seqNums (frameBlocks width height delay imgs i seq) =
      List.range' seq (seqCountFrom imgs i) := by
  intro imgs
  induction imgs with
  | nil => intro i seq _; rfl
  | cons img rest ih =>
    intro i seq hb
    have hseqlt : seq < 4294967296 := by
      rcases Nat.eq_zero_or_pos (seqCountFrom (img :: rest) i) with h0 | h0
      · rw [seqCountFrom] at h0; split at h0 <;> omega
      · omega
    by_cases hi : i = 0
    · subst hi
      rw [seqCountFrom_cons_zero] at hb ⊢
      rw [frameBlocks_cons_zero]
      rw [List.cons_append, seqNums_cons,
        if_pos (Or.inl rfl : (PNGChunk.mk fctlType
          (fctlPayload seq width height delay)).type = fctlType ∨
          (PNGChunk.mk fctlType (fctlPayload seq width height delay)).type = fdatType)]
      have hs : readU32 (PNGChunk.mk fctlType (fctlPayload seq width height delay)).data 0
          = seq := by
        show readU32 (fctlPayload seq width height delay) 0 = seq
        rw [fctlPayload, readU32_writeU32]
        omega
      rw [hs, seqNums_append, seqNums_idatMap, ih 1 (seq + 1) (by omega)]
      rw [show 1 + seqCountFrom rest 1 = seqCountFrom rest 1 + 1 from Nat.add_comm 1 _,
        List.range'_succ]
      rfl
    · rw [seqCountFrom_cons_pos img rest i hi] at hb ⊢
      rw [frameBlocks_cons_pos width height delay img rest i seq hi]
      rw [List.cons_append, seqNums_cons,
        if_pos (Or.inl rfl : (PNGChunk.mk fctlType
          (fctlPayload seq width height delay)).type = fctlType ∨
          (PNGChunk.mk fctlType (fctlPayload seq width height delay)).type = fdatType)]
      have hs : readU32 (PNGChunk.mk fctlType (fctlPayload seq width height delay)).data 0
          = seq := by
        show readU32 (fctlPayload seq width height delay) 0 = seq
        rw [fctlPayload, readU32_writeU32]
        omega
      have hk : idatCount img = (idatsOf (parsedOf img)).length := rfl
      rw [hs, seqNums_append,
        seqNums_fdatBlocks (idatsOf (parsedOf img)) (seq + 1) (by omega),
        ih (i + 1) (seq + 1 + (idatsOf (parsedOf img)).length) (by omega)]
      rw [← hk]
      have hr : List.range' (seq + 1) (idatCount img) ++
          List.range' (seq + 1 + idatCount img) (seqCountFrom rest (i + 1)) =
          List.range' (seq + 1) (seqCountFrom rest (i + 1) + idatCount img) :=
        List.range'_append_1 (seq + 1) (idatCount img) (seqCountFrom rest (i + 1))
      rw [hr, show 1 + idatCount img + seqCountFrom rest (i + 1) =
        (seqCountFrom rest (i + 1) + idatCount img) + 1 from by omega, List.range'_succ]
      rfl

theorem seqCountFrom_pos (imgs : List (List Nat)) : ∀ i, i ≠ 0 →
    seqCountFrom imgs i = imgs.length + (imgs.map idatCount).sum := by
  induction imgs with
  | nil => intro i _; rfl
  | cons img rest ih =>
    intro i hi
    rw [seqCountFrom_cons_pos img rest i hi, ih (i + 1) (by omega)]
    simp
    omega

theorem seqTotal_cons (first : List Nat) (rest : List (List Nat)) :
    seqTotal (first :: rest) = (first :: rest).length + (rest.map idatCount).sum := by
  rw [seqTotal, seqCountFrom_cons_zero, seqCountFrom_pos rest 1 (by omega)]
  simp
  omega

/-! ## Counting frame-control records -/

theorem countP_fctl_fdatBlocks : ∀ (dds : List (List Nat)) (seq : Nat),
    (fdatBlocks seq dds).countP (fun c => c.type = fctlType) = 0 := by
  intro dds
  induction dds with
  | nil => intro seq; rfl
  | cons d rest ih =>
    intro seq
    rw [fdatBlocks, List.countP_cons, ih (seq + 1)]
    simp [fdatType, fctlType]

theorem countP_fctl_idatMap (dds : List (List Nat)) :
    (dds.map (fun d => (⟨idatType, d⟩ : PNGChunk))).countP (fun c => c.type = fctlType) = 0 := by
  rw [List.countP_eq_zero]
  intro c hc
  obtain ⟨d, _, hd⟩ := List.mem_map.mp hc
  rw [← hd]
  simp [idatType, fctlType]

theorem countP_fctl_frameBlocks (width height delay : Nat) :
    ∀ (imgs : List (List Nat)) (i seq : Nat),
    (frameBlocks width height delay imgs i seq).countP (fun c => c.type = fctlType) =
      imgs.length := by
  intro imgs
  induction imgs with
  | nil => intro i seq; rfl
  | cons img rest ih =>
    intro i seq
    by_cases hi : i = 0
    · subst hi
      rw [frameBlocks_cons_zero, List.cons_append, List.countP_cons,
        List.countP_append, countP_fctl_idatMap, ih 1 (seq + 1)]
      simp
    · rw [frameBlocks_cons_pos width height delay img rest i seq hi, List.cons_append,
        List.countP_cons, List.countP_append,
        countP_fctl_fdatBlocks, ih (i + 1) _]
      simp

/-! ## Exceptions thrown by the parser and the frame loop -/

theorem extractLoop_error (png : List Nat) : ∀ (fuel offset : Nat) (e : JSException),
    extractLoop png offset fuel = .error e → e = .rangeError := by
  intro fuel
  induction fuel with
  | zero => intro offset e h; cases h
  | succ fuel ih =>
    intro offset e h
    rw [extractLoop] at h
    by_cases h1 : offset < png.length
    · rw [if_pos h1] at h
      by_cases h2 : offset + 4 ≤ png.length
      · rw [if_pos h2] at h
        by_cases h3 : slice png (offset + 4) (offset + 8) = iendType
        · rw [if_pos h3] at h
          cases h
        · rw [if_neg h3] at h
          rcases hrec : extractLoop png (offset + readU32 png offset + 12) fuel with e2 | cs
          · rw [hrec] at h
            simp at h
            cases h
            exact ih _ _ hrec
          · rw [hrec] at h
            simp at h
      · rw [if_neg h2] at h
        injection h with h4
        exact h4.symm
    · rw [if_neg h1] at h
      cases h

theorem extractAllChunks_error (png : List Nat) (e : JSException)
    (h : extractAllChunks png = .error e) : e = .rangeError :=
  extractLoop_error png _ _ e h

theorem processFrames_error (width height delay : Nat) :
    ∀ (imgs : List (List Nat)) (i seq : Nat) (e : JSException),
    processFrames width height delay imgs i seq = .error e → e = .rangeError := by
  intro imgs
  induction imgs with
  | nil => intro i seq e h; cases h
  | cons img rest ih =>
    intro i seq e h
    rw [processFrames] at h
    split at h
    next e2 heq =>
      injection h with h4
      rw [← h4]
      exact extractAllChunks_error img _ heq
    next cs heq =>
      by_cases hi : i = 0
      · rw [if_pos hi] at h
        split at h
        next e3 heq2 =>
          injection h with h4
          rw [← h4]
          exact ih _ _ _ heq2
        next tail heq2 => cases h
      · rw [if_neg hi] at h
        split at h
        next e3 heq2 =>
          injection h with h4
          rw [← h4]
          exact ih _ _ _ heq2
        next tail heq2 => cases h

/-! ## Reading fields back out of the control payloads -/

theorem fctlPayload_split (s w h d : Nat) :
    fctlPayload s w h d =
      (writeU32 s ++ (writeU32 w ++ (writeU32 h ++ (writeU32 0 ++ writeU32 0)))) ++
        (writeU16 d ++ (writeU16 1000 ++ [0, 0])) := by
  simp [fctlPayload]

theorem fctlPayload_delay (s w h d : Nat) :
    readU16 (fctlPayload s w h d) 20 = d % 65536 := by
  rw [fctlPayload_split,
    show (20 : Nat) =
      (writeU32 s ++ (writeU32 w ++ (writeU32 h ++ (writeU32 0 ++ writeU32 0)))).length from
      by simp,
    readU16_append, readU16_writeU16]

theorem fctlPayload_den (s w h d : Nat) :
    readU16 (fctlPayload s w h d) 22 = 1000 := by
  have hsplit : fctlPayload s w h d =
      ((writeU32 s ++ (writeU32 w ++ (writeU32 h ++ (writeU32 0 ++ writeU32 0)))) ++
        writeU16 d) ++ (writeU16 1000 ++ [0, 0]) := by
    simp [fctlPayload]
  rw [hsplit,
    show (22 : Nat) =
      ((writeU32 s ++ (writeU32 w ++ (writeU32 h ++ (writeU32 0 ++ writeU32 0)))) ++
        writeU16 d).length from by simp,
    readU16_append, readU16_writeU16]

theorem actlPayload_count (n : Nat) (hn : n < 4294967296) :
    readU32 (actlPayload n) 0 = n := by
  rw [actlPayload, readU32_writeU32, Nat.mod_eq_of_lt hn]

/-! ## Decomposition of the emitted chunk list -/

theorem outBlocks_decomp (images : List (List Nat)) (delay : Nat)
    (hne : images ≠ []) (hkey : goodKeyFrame (images.headD [])) :
    outBlocks images delay =
      ((parsedOf (images.headD [])).takeWhile (fun c => ¬ c.type = idatType) ++
        ((⟨actlType, actlPayload images.length⟩ : PNGChunk) ::
          frameBlocks (readU32 (keyHeader (images.headD [])).data 0)
            (readU32 (keyHeader (images.headD [])).data 4) delay images 0 0)) ++
        [(⟨iendType, []⟩ : PNGChunk)] := by
  obtain ⟨first, rest, rfl⟩ : ∃ f r, images = f :: r := by
    cases images with
    | nil => exact absurd rfl hne
    | cons a b => exact ⟨a, b, rfl⟩
  have hkey' : goodKeyFrame first := by simpa using hkey
  obtain ⟨hgoodK, hneK, hheadK, hlenK, hpre⟩ := hkey'
  obtain ⟨hd, t, hht⟩ : ∃ h t, parsedOf first = h :: t := by
    cases hcs : parsedOf first with
    | nil => exact absurd hcs hneK
    | cons a b => exact ⟨a, b, rfl⟩
  have hkeyhd : keyHeader first = hd := by rw [keyHeader, hht]; rfl
  have hhd : hd.type = ihdrType := by rw [← hkeyhd]; exact hheadK
  have hfind : (parsedOf first).find? (fun c => c.type = ihdrType) = some hd := by
    rw [hht]
    exact List.find?_cons_of_pos _ (by simp [hhd])
  rw [outBlocks, hfind]
  simp only [List.headD_cons]
  rw [hkeyhd]

/-- The first chunk of the parsed key frame stays the head of the pre-image
part of the output. -/
theorem takeWhile_head_ihdr (first : List Nat) (hd : PNGChunk) (t : List PNGChunk)
    (hht : parsedOf first = hd :: t) (hhd : hd.type = ihdrType) :
    (parsedOf first).takeWhile (fun c => ¬ c.type = idatType) =
      hd :: t.takeWhile (fun c => ¬ c.type = idatType) := by
  rw [hht, List.takeWhile_cons_of_pos]
  simp [hhd]
  decide

/-! ## Type classification of the per-frame chunks -/

theorem frameBlocks_types (width height delay : Nat) (imgs : List (List Nat)) (i seq : Nat)
    (c : PNGChunk) (hc : c ∈ frameBlocks width height delay imgs i seq) :
    c.type = fctlType ∨ c.type = idatType ∨ c.type = fdatType := by
  rcases frameBlocks_mem width height delay imgs i seq c hc with ⟨ht, _⟩ | ⟨ht, _⟩
  · exact Or.inl ht
  · rcases ht with ht | ht
    · exact Or.inr (Or.inl ht)
    · exact Or.inr (Or.inr ht)

theorem filter_actl_frameBlocks (width height delay : Nat) (imgs : List (List Nat))
    (i seq : Nat) :
    (frameBlocks width height delay imgs i seq).filter (fun c => c.type = actlType) = [] := by
  rw [List.filter_eq_nil_iff]
  intro c hc
  rcases frameBlocks_types width height delay imgs i seq c hc with ht | ht | ht <;>
    simp [ht, fctlType, idatType, fdatType, actlType]

/-- Every frame-control record of the frame loop carries the shared payload
fields. -/
theorem frameBlocks_fctl_payload (width height delay : Nat) (imgs : List (List Nat))
    (i seq : Nat) (c : PNGChunk) (hc : c ∈ frameBlocks width height delay imgs i seq)
    (ht : c.type = fctlType) :
    ∃ s, c.data = fctlPayload s width height delay := by
  rcases frameBlocks_mem width height delay imgs i seq c hc with ⟨_, s, hs⟩ | ⟨hor, _⟩
  · exact ⟨s, hs⟩
  · exfalso
    rcases hor with h2 | h2 <;> rw [ht] at h2
    · exact absurd h2 (by decide)
    · exact absurd h2 (by decide)

/-! ## Sequence numbers of the whole output -/

theorem seqNums_outBlocks (images : List (List Nat)) (delay : Nat)
    (hne : images ≠ []) (hkey : goodKeyFrame (images.headD []))
    (hbound : seqTotal images ≤ 4294967296) :
    seqNums (outBlocks images delay) = List.range (seqTotal images) := by
  have hcond : ¬ (((⟨actlType, actlPayload images.length⟩ : PNGChunk)).type = fctlType ∨
      ((⟨actlType, actlPayload images.length⟩ : PNGChunk)).type = fdatType) := by
    simp [actlType, fctlType, fdatType]
  rw [outBlocks_decomp images delay hne hkey, seqNums_append, seqNums_append, seqNums_cons,
    if_neg hcond]
  have hkey' : goodKeyFrame (images.headD []) := hkey
  obtain ⟨_, _, _, _, hpre⟩ := hkey'
  rw [seqNums_of_no_frames _ (fun c hc => ⟨(hpre c hc).2.2.1, (hpre c hc).2.2.2⟩)]
  rw [seqNums_frameBlocks _ _ delay images 0 0 (by simpa [seqTotal] using hbound)]
  rw [seqNums_of_no_frames [⟨iendType, []⟩] (by
    intro c hc
    rcases List.mem_singleton.mp hc with rfl
    exact ⟨show iendType ≠ fctlType by decide, show iendType ≠ fdatType by decide⟩)]
  rw [List.range_eq_range']
  simp [seqTotal]

/-! # Claims -/

/-- C8: the checksum function equals the standard reflected CRC-32
(polynomial 0xEDB88320, table-driven, seed 0xFFFFFFFF, final complement) on
byte inputs; it is a total function, and on the empty input it returns 0
(the CRC of zero bytes). -/
theorem claim_C8_crc32_standard (data : List Nat) :
    ((∀ b ∈ data, b < 256) → crc32 data = crc32_bitwise data) ∧ crc32 [] = 0 :=
  ⟨fun h => crc32_eq_bitwise data h, by decide⟩

theorem claim_C8_crc32_standard_witness :
    (∀ b ∈ [73, 69, 78, 68], b < 256) ∧
    crc32 [73, 69, 78, 68] = crc32_bitwise [73, 69, 78, 68] ∧ crc32 [] = 0 :=
  ⟨by decide, (claim_C8_crc32_standard [73, 69, 78, 68]).1 (by decide),
    (claim_C8_crc32_standard []).2⟩

/-- C7: for every type tag and payload, the chunk serializer emits exactly the
4-byte big-endian payload length, the type tag, the payload, then the 4-byte
big-endian CRC-32 over (type ++ payload); in particular the trailing 4 bytes
of the chunk are the independently recomputed checksum of type ++ payload. -/
theorem claim_C7_chunk_layout (type data : List Nat) :
    createChunk type data =
      writeU32 data.length ++ (type ++ (data ++ writeU32 (crc32 (type ++ data)))) ∧
    (createChunk type data).drop (4 + type.length + data.length) =
      writeU32 (crc32 (type ++ data)) := by
  refine ⟨createChunk_eq type data, ?_⟩
  rw [createChunk_eq,
    show writeU32 data.length ++ (type ++ (data ++ writeU32 (crc32 (type ++ data)))) =
      ((writeU32 data.length ++ type) ++ data) ++ writeU32 (crc32 (type ++ data)) from by
        simp [List.append_assoc]]
  exact List.drop_left' (by simp [Nat.add_assoc])

/-- C10: the frame-control builder stores the delay as a 16-bit big-endian
field: the numerator written into the payload is `delay mod 2^16`, and a delay
65536 larger produces the byte-identical chunk (silent wraparound, no
rejection). -/
theorem claim_C10_delay_wraps (s w h d : Nat) :
    readU16 (fctlData s w h d) 20 = d % 65536 ∧
    createFctlChunk s w h (d + 65536) = createFctlChunk s w h d := by
  constructor
  · rw [fctlData_eq, fctlPayload_delay]
  · rw [createFctlChunk_eq, createFctlChunk_eq]
    have hw : writeU16 (d + 65536) = writeU16 d := by
      rw [writeU16, writeU16,
        show (d + 65536) / 256 % 256 = d / 256 % 256 from by omega,
        show (d + 65536) % 256 = d % 256 from by omega]
    rw [fctlPayload, fctlPayload, hw]

/-- C5 (code behaviour at the failing input): called with an empty image
list, the assembler throws an untyped TypeError (reading a property of
`undefined`), not a typed EmptyInputError — no such error kind exists in the
code. -/
theorem claim_C5_empty_input_typeerror (delay : Nat) :
    createAPNG [] delay = .error .typeError := rfl

/-- C4 (code behaviour at the failing input): on a truncated buffer with
fewer than 4 bytes after the signature, the parser throws an untyped
RangeError from an out-of-bounds DataView read instead of returning a typed
error value. -/
theorem claim_C4_untyped_rangeerror :
    extractAllChunks (pngSignature ++ [0, 0]) = .error .rangeError := by decide

/-- C3 (code behaviour at the failing input): a length field pointing past
the buffer end does not produce a FormatError; `slice` clamps and the parser
returns a chunk sequence with a truncated (empty) payload. -/
theorem claim_C3_truncation_not_reported :
    extractAllChunks (pngSignature ++ ([0, 0, 0, 100] ++ [84, 69, 83, 84])) =
      .ok [⟨[84, 69, 83, 84], []⟩] := by decide

/-- C6: the assembler fails with the missing-header error exactly when the
first image parses successfully into a chunk stream containing no IHDR
chunk; the failure is terminal (the pure function returns the error), and
with a header present this error never occurs. -/
theorem claim_C6_missing_header_iff (images : List (List Nat)) (delay : Nat) :
    createAPNG images delay = .error .ihdrNotFound ↔
      ∃ first rest cs, images = first :: rest ∧ extractAllChunks first = .ok cs ∧
        ∀ c ∈ cs, c.type ≠ ihdrType := by
  cases images with
  | nil =>
    constructor
    · intro h
      simp [createAPNG] at h
    · rintro ⟨f, r, cs, h, _⟩
      cases h
  | cons first rest =>
    rcases hx : extractAllChunks first with e | cs
    · refine iff_of_false ?_ ?_
      · intro h
        simp only [createAPNG, hx] at h
        injection h with h4
        have := extractAllChunks_error first e hx
        rw [this] at h4
        cases h4
      · rintro ⟨f, r, cs2, heq, hok, _⟩
        injection heq with h1 h2
        rw [← h1] at hok
        rw [hx] at hok
        cases hok
    · rcases hf : cs.find? (fun c => c.type = ihdrType) with _ | ihdr
      · refine iff_of_true ?_ ?_
        · simp only [createAPNG, hx, hf]
        · refine ⟨first, rest, cs, rfl, hx, ?_⟩
          intro c hc
          have := List.find?_eq_none.mp hf c hc
          simpa using this
      · refine iff_of_false ?_ ?_
        · intro h
          simp only [createAPNG, hx, hf] at h
          by_cases hlen : 8 ≤ ihdr.data.length
          · rw [if_pos hlen] at h
            rcases hpf : processFrames (readU32 ihdr.data 0) (readU32 ihdr.data 4) delay
                (first :: rest) 0 0 with e2 | frames
            · rw [hpf] at h
              simp at h
              have := processFrames_error _ _ delay _ _ _ _ hpf
              rw [this] at h
              cases h
            · rw [hpf] at h
              simp at h
          · rw [if_neg hlen] at h
            cases h
        · rintro ⟨f, r, cs2, heq, hok, hall⟩
          injection heq with h1 h2
          rw [← h1] at hok
          rw [hx] at hok
          injection hok with h3
          have hmem : ihdr ∈ cs := List.mem_of_find?_eq_some hf
          have htype : ihdr.type = ihdrType := by
            have := List.find?_some hf
            simpa using this
          rw [h3] at hmem
          exact hall ihdr hmem htype

/-- C1 (amended): for every well-formed non-empty input the sequence numbers
written into frame-control and frame-data records, in emission order, are
exactly 0..N-1 with no gaps or repeats, where N = frames + (sum of
non-key-frame image-data chunk counts); the animation-control record consumes
none and contributes nothing to N. -/
theorem claim_C1_sequence_numbers (images : List (List Nat)) (delay : Nat)
    (hgood : goodInput images)
    (hbound : seqTotal images ≤ 4294967296) :
    ∃ out cs, createAPNG images delay = .ok out ∧ extractAllChunks out = .ok cs ∧
      seqNums cs = List.range (seqTotal images) ∧
      seqTotal images = images.length + ((images.drop 1).map idatCount).sum := by
  obtain ⟨hne, hkey, hall⟩ := hgood
  refine ⟨_, outBlocks images delay, createAPNG_eq images delay hne hkey hall,
    apng_roundtrip images delay hne hkey hall,
    seqNums_outBlocks images delay hne hkey hbound, ?_⟩
  obtain ⟨first, rest, rfl⟩ : ∃ f r, images = f :: r := by
    cases images with
    | nil => exact absurd rfl hne
    | cons a b => exact ⟨a, b, rfl⟩
  rw [seqTotal_cons]
  simp

set_option maxRecDepth 1000000 in
theorem claim_C1_sequence_numbers_witness :
    goodInput [testImg, testImg] ∧ seqTotal [testImg, testImg] ≤ 4294967296 ∧
    (∃ out cs, createAPNG [testImg, testImg] 100 = .ok out ∧
      extractAllChunks out = .ok cs ∧
      seqNums cs = List.range (seqTotal [testImg, testImg]) ∧
      seqTotal [testImg, testImg] = [testImg, testImg].length +
        (([testImg, testImg].drop 1).map idatCount).sum) :=
  ⟨by decide, by decide, claim_C1_sequence_numbers [testImg, testImg] 100 (by decide) (by decide)⟩

set_option maxRecDepth 1000000 in
/-- C1 counterexample to the claim as stated: on two minimal one-image-data
frames the code assigns sequence numbers [0, 1, 2], which is not
0..N-1 for the spec's N = 1 (animation-control) + frames + (sum of
non-key-frame image-data chunk counts) = 4. -/
theorem claim_C1_counterexample :
    apngOk [testImg, testImg] 100 = true ∧
    seqNums (parsedOf (apngBytes [testImg, testImg] 100)) = [0, 1, 2] ∧
    [0, 1, 2] ≠ List.range (1 + [testImg, testImg].length +
      (([testImg, testImg].drop 1).map idatCount).sum) := by
  refine ⟨by decide, by decide, by decide⟩

/-- C2: re-parsing the assembler output yields a chunk stream whose leading
header chunk carries the key frame's width and height at payload offsets 0
and 4, whose single animation-control record carries frame count =
images.length, and which contains exactly images.length frame-control
records, each with delay numerator `delay` and denominator 1000. -/
theorem claim_C2_roundtrip (images : List (List Nat)) (delay : Nat)
    (hgood : goodInput images) (hdelay : delay < 65536)
    (hcount : images.length < 4294967296) :
    ∃ out cs hdr, createAPNG images delay = .ok out ∧
      extractAllChunks out = .ok cs ∧
      cs.find? (fun c => c.type = ihdrType) = some hdr ∧
      readU32 hdr.data 0 = readU32 (keyHeader (images.headD [])).data 0 ∧
      readU32 hdr.data 4 = readU32 (keyHeader (images.headD [])).data 4 ∧
      (cs.filter (fun c => c.type = actlType)).map (fun c => readU32 c.data 0) =
        [images.length] ∧
      cs.countP (fun c => c.type = fctlType) = images.length ∧
      ∀ c ∈ cs, c.type = fctlType →
        readU16 c.data 20 = delay ∧ readU16 c.data 22 = 1000 := by
  obtain ⟨hne, hkey, hall⟩ := hgood
  obtain ⟨hd, t, hht⟩ : ∃ h t, parsedOf (images.headD []) = h :: t := by
    cases hcs : parsedOf (images.headD []) with
    | nil => exact absurd hcs hkey.2.1
    | cons a b => exact ⟨a, b, rfl⟩
  have hkeyhd : keyHeader (images.headD []) = hd := by rw [keyHeader, hht]; rfl
  have hhd : hd.type = ihdrType := by rw [← hkeyhd]; exact hkey.2.2.1
  have hpre := hkey.2.2.2.2
  have hpre' : ∀ c ∈ t.takeWhile (fun c => ¬ c.type = idatType),
      c.type ≠ iendType ∧ c.type ≠ actlType ∧ c.type ≠ fctlType ∧ c.type ≠ fdatType := by
    intro c hc
    refine hpre c ?_
    rw [takeWhile_head_ihdr _ hd t hht hhd]
    exact List.mem_cons_of_mem _ hc
  have hdecomp := outBlocks_decomp images delay hne hkey
  rw [takeWhile_head_ihdr _ hd t hht hhd] at hdecomp
  refine ⟨_, outBlocks images delay, hd, createAPNG_eq images delay hne hkey hall,
    apng_roundtrip images delay hne hkey hall, ?_, by rw [hkeyhd], by rw [hkeyhd],
    ?_, ?_, ?_⟩
  · -- find? IHDR
    rw [hdecomp, List.cons_append, List.cons_append]
    exact List.find?_cons_of_pos _ (by simp [hhd])
  · -- acTL filter
    rw [hdecomp, List.filter_append, List.filter_append, List.filter_cons_of_neg
      (by simp [hhd, ihdrType, actlType]), List.filter_cons_of_pos (by simp [actlType]),
      filter_actl_frameBlocks,
      List.filter_eq_nil_iff.mpr (fun c hc => by simp [(hpre' c hc).2.1]),
      List.filter_eq_nil_iff.mpr (fun c hc => by
        rcases List.mem_singleton.mp hc with rfl
        simp [iendType, actlType])]
    simp [actlPayload_count images.length hcount]
  · -- fcTL count
    rw [hdecomp, List.countP_append, List.countP_append, List.countP_cons, List.countP_cons,
      countP_fctl_frameBlocks,
      List.countP_eq_zero.mpr (fun c hc => by simp [(hpre' c hc).2.2.1])]
    simp [hhd, ihdrType, fctlType, actlType, iendType]
  · -- every fcTL carries the delay fields
    intro c hc ht
    rw [hdecomp] at hc
    rcases List.mem_append.mp hc with hc | hc
    · rcases List.mem_append.mp hc with hc | hc
      · rcases List.mem_cons.mp hc with rfl | hc
        · rw [ht] at hhd
          exact absurd hhd.symm (by decide)
        · exact absurd ht (hpre' c hc).2.2.1
      · rcases List.mem_cons.mp hc with rfl | hc
        · exact absurd ht (by simp [actlType, fctlType])
        · obtain ⟨s, hs⟩ := frameBlocks_fctl_payload _ _ delay images 0 0 c hc ht
          rw [hs, fctlPayload_delay, fctlPayload_den, Nat.mod_eq_of_lt hdelay]
          exact ⟨rfl, rfl⟩
    · rcases List.mem_singleton.mp hc with rfl
      exact absurd ht (by decide)

set_option maxRecDepth 1000000 in
theorem claim_C2_roundtrip_witness :
    goodInput [testImg, testImg] ∧ 100 < 65536 ∧ [testImg, testImg].length < 4294967296 ∧
    (∃ out cs hdr, createAPNG [testImg, testImg] 100 = .ok out ∧
      extractAllChunks out = .ok cs ∧
      cs.find? (fun c => c.type = ihdrType) = some hdr ∧
      readU32 hdr.data 0 = readU32 (keyHeader ([testImg, testImg].headD [])).data 0 ∧
      readU32 hdr.data 4 = readU32 (keyHeader ([testImg, testImg].headD [])).data 4 ∧
      (cs.filter (fun c => c.type = actlType)).map (fun c => readU32 c.data 0) =
        [[testImg, testImg].length] ∧
      cs.countP (fun c => c.type = fctlType) = [testImg, testImg].length ∧
      ∀ c ∈ cs, c.type = fctlType →
        readU16 c.data 20 = 100 ∧ readU16 c.data 22 = 1000) :=
  ⟨by decide, by decide, by decide,
    claim_C2_roundtrip [testImg, testImg] 100 (by decide) (by decide) (by decide)⟩

/-- C9: for well-formed non-empty inputs with consistent dimensions, the
assembler output begins with the 8-byte PNG signature and ends with a
well-formed end-marker chunk: length field 0 (empty payload), the IEND tag,
and the correct checksum over the tag. -/
theorem claim_C9_signature_end (images : List (List Nat)) (delay : Nat)
    (hgood : goodInput images) (_hdims : sameDims images) :
    ∃ out pre, createAPNG images delay = .ok out ∧
      out.take 8 = pngSignature ∧
      out = pre ++ (writeU32 0 ++ (iendType ++ writeU32 (crc32 iendType))) := by
  obtain ⟨hne, hkey, hall⟩ := hgood
  obtain ⟨bs, hbs, _⟩ := outBlocks_no_early_iend images delay hne hkey
  refine ⟨_, pngSignature ++ encodeBlocks bs,
    createAPNG_eq images delay hne hkey hall, ?_, ?_⟩
  · rw [show (8 : Nat) = pngSignature.length from rfl, take_app]
  · rw [hbs, encodeBlocks_append, ← List.append_assoc]
    congr 1

set_option maxRecDepth 1000000 in
theorem claim_C9_signature_end_witness :
    goodInput [testImg, testImg] ∧ sameDims [testImg, testImg] ∧
    (∃ out pre, createAPNG [testImg, testImg] 100 = .ok out ∧
      out.take 8 = pngSignature ∧
      out = pre ++ (writeU32 0 ++ (iendType ++ writeU32 (crc32 iendType)))) :=
  ⟨by decide, by decide,
    claim_C9_signature_end [testImg, testImg] 100 (by decide) (by decide)⟩

end APNG
